import Mathlib

/-!
Verification of the scavenger-hunt sequence generator
(`scavenger_hunt_script.js`).

The pseudorandom source (`Math.random`) is modelled as a stream of
natural numbers (`List Nat`): each call to the source consumes one
element of the stream, and a consumer that needs a value in `[0, k)`
reduces the element modulo `k` (matching `Math.floor(Math.random()*k)`,
which produces exactly the values `0 .. k-1`).  Quantifying over all
streams therefore quantifies over all possible runs.
-/

/-- A clue record as read from the Clues sheet: question text, answer
(location) text, and an optional type string (`null` / empty cell is
`none`). -/
structure Clue where
  question : String
  answer : String
  clueType : Option String
deriving DecidableEq, Repr

instance : Inhabited Clue := ⟨⟨"", "", none⟩⟩

/-- One row of a generated group sequence, mirroring the objects pushed
onto `candidateSequence` in `generateHuntSequences`. -/
structure Step where
  clueNumber : Nat
  question : String
  location : String
  nextClue : String
deriving DecidableEq, Repr

instance : Inhabited Step := ⟨⟨0, "", "", ""⟩⟩

/-- Consume one value from the pseudorandom stream (0 when exhausted). -/
def next : List Nat → Nat × List Nat
  | [] => (0, [])
  | x :: xs => (x, xs)

/-- Simultaneous swap of the entries at positions `i` and `j`
(the JS destructuring assignment `[a[i], a[j]] = [a[j], a[i]]`). -/
def listSwap (l : List Clue) (i j : Nat) : List Clue :=
  (l.set i (l.getD j default)).set j (l.getD i default)

/-- The body of `shuffleArray`'s Fisher–Yates loop: `i` runs downward to
`1`; at each position `j = rand % (i+1)` is drawn and `a[i]`, `a[j]` are
swapped. -/
def fisherYatesAux : List Clue → Nat → List Nat → List Clue × List Nat
  | l, 0, rand => (l, rand)
  | l, Nat.succ k, rand =>
    let p := next rand
    let j := p.1 % (k + 2)
    fisherYatesAux (listSwap l (k + 1) j) k p.2

/-- `shuffleArray`: in-place Fisher–Yates shuffle, modelled as a function
from the list and the random stream to the shuffled list and the rest of
the stream. -/
def shuffleList (l : List Clue) (rand : List Nat) : List Clue × List Nat :=
  match l with
  | [] => (l, rand)
  | _ :: _ => fisherYatesAux l (l.length - 1) rand

/-- `toLowerCase`, written on the character list so that it reduces on
literals (`String.toLower` maps `Char.toLower` over the characters). -/
def strLower (s : String) : String :=
  ⟨s.data.map Char.toLower⟩

/-- `c.clueType && c.clueType.toLowerCase() === 'person'`. -/
def isPersonClue (c : Clue) : Bool :=
  match c.clueType with
  | some t => strLower t == "person"
  | none => false

/-- `c.clueType && c.clueType.toLowerCase() === 'place'`. -/
def isPlaceClue (c : Clue) : Bool :=
  match c.clueType with
  | some t => strLower t == "place"
  | none => false

/-- `!c.clueType || !['person','place'].includes(c.clueType.toLowerCase())`. -/
def isOtherClue (c : Clue) : Bool :=
  match c.clueType with
  | some t => !(strLower t == "person" || strLower t == "place")
  | none => true

/-- The strict-alternation loop of `createAlternatingSequence`
(`for i in 0..totalTyped-1`), with the remaining place/person clues kept
as lists instead of an index into the shuffled arrays.  `wantPlace` is
`currentType === 'place'`. -/
def interleaveAux : Nat → List Clue → List Clue → Bool → List Clue
  | 0, _, _, _ => []
  | Nat.succ n, place, person, wantPlace =>
    if wantPlace then
      match place with
      | p :: ps => p :: interleaveAux n ps person false
      | [] =>
        match person with
        | q :: qs => q :: interleaveAux n [] qs true
        | [] => interleaveAux n [] [] wantPlace
    else
      match person with
      | q :: qs => q :: interleaveAux n place qs true
      | [] =>
        match place with
        | p :: ps => p :: interleaveAux n ps [] false
        | [] => interleaveAux n [] [] wantPlace

/-- The search of the second-to-last post-pass: the first index
`i < result.length - 2` holding a Place clue (note the loop starts at
`i = 0`). -/
def findPlaceIdx (result : List Clue) (bound : Nat) : Option Nat :=
  (List.range bound).find? (fun i => isPlaceClue (result.getD i default))

/-- The post-pass of `createAlternatingSequence`: if the second-to-last
entry is a Person, swap it with the first Place found among indices
`0 .. length-3`. -/
def postPassSwap (result : List Clue) : List Clue :=
  if 2 ≤ result.length then
    if isPersonClue (result.getD (result.length - 2) default) then
      match findPlaceIdx result (result.length - 2) with
      | some i => listSwap result i (result.length - 2)
      | none => result
    else result
  else result

/-- `result.splice(pos, 0, c)`. -/
def insertAt (l : List Clue) (pos : Nat) (c : Clue) : List Clue :=
  l.take pos ++ c :: l.drop pos

/-- The final loop of `createAlternatingSequence`: each untyped clue is
inserted at `Math.floor(Math.random() * result.length) + 1`. -/
def insertOthers : List Clue → List Clue → List Nat → List Clue × List Nat
  | result, [], rand => (result, rand)
  | result, c :: rest, rand =>
    let p := next rand
    insertOthers (insertAt result (p.1 % result.length + 1) c) rest p.2

/-- `createAlternatingSequence`: partition by type, bail out (`null`)
when there is no Place clue or fewer than 2 typed clues, otherwise
shuffle the partitions, interleave starting on a Place, apply the
second-to-last post-pass, and insert the untyped clues. -/
def createAlternatingSequence (clues : List Clue) (rand : List Nat) :
    Option (List Clue) × List Nat :=
  let personClues := clues.filter isPersonClue
  let placeClues := clues.filter isPlaceClue
  let otherClues := clues.filter isOtherClue
  if placeClues.length = 0 then (none, rand)
  else if personClues.length + placeClues.length < 2 then (none, rand)
  else
    let r1 := shuffleList personClues rand
    let r2 := shuffleList placeClues r1.2
    let r3 := shuffleList otherClues r2.2
    let interleaved := interleaveAux (r1.1.length + r2.1.length) r2.1 r1.1 true
    let swapped := postPassSwap interleaved
    let r4 := insertOthers swapped r3.1 r3.2
    (some r4.1, r4.2)

/-- The consecutive-pair keys recorded in `usedConsecutivePairs`:
`"q1|q2"` for each adjacent pair of question texts. -/
def adjKeysQ : List String → List String
  | a :: b :: rest => (a ++ "|" ++ b) :: adjKeysQ (b :: rest)
  | _ => []

/-- Adjacent-pair keys of a clue list. -/
def adjKeys (l : List Clue) : List String :=
  adjKeysQ (l.map Clue.question)

/-- The ordered adjacent question pairs of a question list. -/
def adjPairsQ : List String → List (String × String)
  | a :: b :: rest => (a, b) :: adjPairsQ (b :: rest)
  | _ => []

/-- Rule 1b of `violatesConstraints`:
`shuffledClues[0].clueType && shuffledClues[0].clueType.toLowerCase() !== 'place'`. -/
def placeFirstViolation (c : Clue) : Bool :=
  match c.clueType with
  | some t => !(strLower t == "place")
  | none => false

/-- A clue that carries a recognized type
(`['person','place'].includes(clue.clueType.toLowerCase())`). -/
def isTypedClue (c : Clue) : Bool :=
  match c.clueType with
  | some t => strLower t == "person" || strLower t == "place"
  | none => false

/-- The lowercased type string of a clue (empty when absent). -/
def clueTypeLower (c : Clue) : String :=
  match c.clueType with
  | some t => strLower t
  | none => ""

/-- The violation counter of `followsAlternatingTypes`: adjacent pairs
whose types are both recognized and equal. -/
def countTypeViolations : List Clue → Nat
  | a :: b :: rest =>
    (if isTypedClue a && isTypedClue b && clueTypeLower a == clueTypeLower b
      then 1 else 0) + countTypeViolations (b :: rest)
  | _ => 0

/-- `followsAlternatingTypes`: pass with fewer than 2 typed clues,
otherwise accept when violations are at most half the length. -/
def followsAlternatingTypes (shuffled : List Clue) : Bool :=
  if (shuffled.filter isTypedClue).length < 2 then true
  else decide (countTypeViolations shuffled ≤ shuffled.length / 2)

/-- `violatesConstraints`: first-clue uniqueness, the Place-first rule,
no recorded consecutive pair, and the soft alternation check, in the
source's short-circuit order.  (The source indexes `shuffledClues[0]`
and is never called on an empty candidate; the empty case is mapped to
`false`.) -/
def violatesConstraints (shuffled : List Clue) (usedF usedP : List String) : Bool :=
  match shuffled with
  | [] => false
  | c0 :: _ =>
    if usedF.contains c0.question then true
    else if placeFirstViolation c0 then true
    else if (adjKeys shuffled).any (fun k => usedP.contains k) then true
    else !(followsAlternatingTypes shuffled)

/-- The `nextClue` label for a non-final step:
`Group g Clue k. q`. -/
def nextLabel (g : Nat) (k : Nat) (q : String) : String :=
  "Group " ++ toString g ++ " Clue " ++ toString k ++ ". " ++ q

/-- The loop of `generateHuntSequences` that materializes the Steps for
the shuffled (randomizable) clues; `k` is the 1-based clue number of the
head. -/
def buildSteps (g : Nat) (finalClue : Clue) : Nat → List Clue → List Step
  | _, [] => []
  | k, c :: rest =>
    { clueNumber := k
      question := c.question
      location := "Hide this at/with: " ++ c.answer
      nextClue :=
        nextLabel g (k + 1)
          (match rest with
           | [] => finalClue.question
           | c2 :: _ => c2.question) } :: buildSteps g finalClue (k + 1) rest

/-- A group's full sequence: Steps for the shuffled clues followed by
the shared final-clue Step. -/
def buildSequence (g : Nat) (shuffled : List Clue) (finalClue : Clue) : List Step :=
  buildSteps g finalClue 1 shuffled ++
    [{ clueNumber := shuffled.length + 1
       question := finalClue.question
       location := "Hide this at/with: " ++ finalClue.answer
       nextClue := toString (shuffled.length + 2) ++ ". The End" }]

/-- The error raised when a group exhausts its attempt bound. -/
def errMsg (g : Nat) : String :=
  "Could not generate valid sequence for Group " ++ toString g ++
    " after 100 attempts. Try using more clues or fewer groups."

/-- The error raised when fewer than 2 clues are supplied. -/
def insufficientMsg : String :=
  "Need at least 2 clues to generate a hunt"

/-- One group's `while (sequence === null && attempts < maxAttempts)`
loop: try the alternating builder, fall back to a plain shuffle when it
returns `null` or violates the constraints, and retry on failure.
Returns the committed candidate (if any), the number of attempts made,
and the rest of the random stream. -/
def tryGroup : Nat → List Clue → List String → List String → List Nat →
    Option (List Clue) × Nat × List Nat
  | 0, _, _, _, rand => (none, 0, rand)
  | Nat.succ fuel, pool, usedF, usedP, rand =>
    let r1 := createAlternatingSequence pool rand
    let needFallback : Bool :=
      match r1.1 with
      | none => true
      | some s => violatesConstraints s usedF usedP
    if needFallback then
      let r2 := shuffleList pool r1.2
      if violatesConstraints r2.1 usedF usedP then
        let r3 := tryGroup fuel pool usedF usedP r2.2
        (r3.1, r3.2.1 + 1, r3.2.2)
      else (some r2.1, 1, r2.2)
    else (r1.1, 1, r1.2)

/-- The `for (groupNum = 1; ...)` loop of `generateHuntSequences`:
commit each group's candidate, recording its first clue and adjacent
pairs, or abort the whole run. -/
def runGroups : List Nat → List Clue → Clue → List (Nat × List Step) →
    List String → List String → List Nat → Except String (List (Nat × List Step))
  | [], _, _, acc, _, _, _ => Except.ok acc
  | g :: gs, pool, finalClue, acc, usedF, usedP, rand =>
    match tryGroup 100 pool usedF usedP rand with
    | (none, _, _) => Except.error (errMsg g)
    | (some s, _, rand') =>
      runGroups gs pool finalClue
        (acc ++ [(g, buildSequence g s finalClue)])
        (usedF ++ [(s.headD default).question])
        (usedP ++ adjKeys s) rand'

/-- `generateHuntSequences`: reject pools of fewer than 2 clues, reserve
the last clue as the shared final clue, and run the per-group loop. -/
def generateHuntSequences (clues : List Clue) (numGroups : Nat) (rand : List Nat) :
    Except String (List (Nat × List Step)) :=
  if clues.length < 2 then Except.error insufficientMsg
  else
    runGroups (List.range' 1 numGroups) clues.dropLast (clues.getLastD default)
      [] [] [] rand

/-! ### The run invariant -/

/-- A committed group entry: its step list was materialized from some
candidate clue ordering of the pool's length whose first question and
adjacent-pair keys have been recorded in the ledger. -/
def Committed (pool : List Clue) (finalClue : Clue) (p : Nat × List Step)
    (usedF usedP : List String) : Prop :=
  ∃ c : List Clue, p.2 = buildSequence p.1 c finalClue ∧ c.length = pool.length ∧
    (c.headD default).question ∈ usedF ∧ ∀ k ∈ adjKeys c, k ∈ usedP

/-- Two step lists whose opening questions differ. -/
def FirstsDiffer (s1 s2 : List Step) : Prop :=
  (s1.headD default).question ≠ (s2.headD default).question

/-- No adjacent question-pair key is shared by the randomizable portions
(the steps before the final one) of two step lists. -/
def PairsDisjoint (s1 s2 : List Step) : Prop :=
  ∀ k ∈ adjKeysQ (s1.dropLast.map Step.question),
    k ∉ adjKeysQ (s2.dropLast.map Step.question)

/-- Every committed entry is recorded in the ledger. -/
def LedgerInv (pool : List Clue) (finalClue : Clue) (res : List (Nat × List Step))
    (usedF usedP : List String) : Prop :=
  ∀ p ∈ res, Committed pool finalClue p usedF usedP

/-- Distinct groups have distinct opening questions and disjoint
adjacent-pair keys. -/
def PairwiseInv (res : List (Nat × List Step)) : Prop :=
  ∀ p ∈ res, ∀ q ∈ res, p.1 ≠ q.1 → FirstsDiffer p.2 q.2 ∧ PairsDisjoint p.2 q.2

/-! ### Textual containment -/

/-- `s` textually contains `t`. -/
def strContains (s t : String) : Prop :=
  ∃ u v : List Char, s.data = u ++ t.data ++ v

/-! ### Runs used as concrete witnesses -/

def demoClues : List Clue :=
  [⟨"q1", "a1", none⟩, ⟨"q2", "a2", none⟩, ⟨"q3", "a3", none⟩]

def demoSeq1 : List Step :=
  [⟨1, "q1", "Hide this at/with: a1", "Group 1 Clue 2. q2"⟩,
   ⟨2, "q2", "Hide this at/with: a2", "Group 1 Clue 3. q3"⟩,
   ⟨3, "q3", "Hide this at/with: a3", "4. The End"⟩]

def demoSeq2 : List Step :=
  [⟨1, "q2", "Hide this at/with: a2", "Group 2 Clue 2. q1"⟩,
   ⟨2, "q1", "Hide this at/with: a1", "Group 2 Clue 3. q3"⟩,
   ⟨3, "q3", "Hide this at/with: a3", "4. The End"⟩]

def demoRes : List (Nat × List Step) := [(1, demoSeq1), (2, demoSeq2)]

/-! ### The post-pass swap can displace the Place-first entry (C4) -/

/-- The pool on which the alternating builder's post-pass misbehaves:
one Place clue and three Person clues. -/
def onePlaceThreePersons : List Clue :=
  [⟨"p1", "x", some "Place"⟩, ⟨"a1q", "x", some "Person"⟩,
   ⟨"a2q", "x", some "Person"⟩, ⟨"a3q", "x", some "Person"⟩]

/-! ### Heap model of array identity (frame effects, C8/C10)

JS arrays are mutable objects; to state that the generator never mutates
the caller's `clues` array, the arrays it touches are given explicit
identities in a heap.  `slice`, the spread copy and `filter` allocate
fresh arrays; `shuffleArray` writes in place through a reference. -/

/-- The store of clue arrays, indexed by allocation order. -/
abbrev Heap := List (List Clue)

/-- Dereference an array. -/
def hread (h : Heap) (r : Nat) : List Clue := h.getD r []

/-- Write an array in place. -/
def hwrite (h : Heap) (r : Nat) (v : List Clue) : Heap := h.set r v

/-- Allocate a fresh array (`slice`, `[...xs]`, `filter` results). -/
def halloc (h : Heap) (v : List Clue) : Heap × Nat := (h ++ [v], h.length)

/-- `shuffleArray` through a reference: an in-place write of the
shuffled contents. -/
def shuffleArrayH (h : Heap) (r : Nat) (rand : List Nat) : Heap × List Nat :=
  let res := shuffleList (hread h r) rand
  (hwrite h r res.1, res.2)

/-- `createAlternatingSequence` in the heap model: the three `filter`
results are fresh arrays, shuffled in place; the `result` array is local
and returned by value. -/
def createAlternatingSequenceH (h : Heap) (cluesR : Nat) (rand : List Nat) :
    Option (List Clue) × Heap × List Nat :=
  let clues := hread h cluesR
  let personClues := clues.filter isPersonClue
  let placeClues := clues.filter isPlaceClue
  let otherClues := clues.filter isOtherClue
  if placeClues.length = 0 then (none, h, rand)
  else if personClues.length + placeClues.length < 2 then (none, h, rand)
  else
    let a1 := halloc h personClues
    let a2 := halloc a1.1 placeClues
    let a3 := halloc a2.1 otherClues
    let s1 := shuffleArrayH a3.1 a1.2 rand
    let s2 := shuffleArrayH s1.1 a2.2 s1.2
    let s3 := shuffleArrayH s2.1 a3.2 s2.2
    let personS := hread s3.1 a1.2
    let placeS := hread s3.1 a2.2
    let otherS := hread s3.1 a3.2
    let interleaved := interleaveAux (personS.length + placeS.length) placeS personS true
    let swapped := postPassSwap interleaved
    let r4 := insertOthers swapped otherS s3.2
    (some r4.1, s3.1, r4.2)

/-- One group's attempt loop in the heap model: the fallback copies the
randomizable array (`[...randomizableClues]`) into a fresh cell and
shuffles the copy in place. -/
def tryGroupH : Nat → Heap → Nat → List String → List String → List Nat →
    Option (List Clue) × Heap × List Nat
  | 0, h, _, _, _, rand => (none, h, rand)
  | Nat.succ fuel, h, randR, usedF, usedP, rand =>
    let r1 := createAlternatingSequenceH h randR rand
    let needFallback : Bool :=
      match r1.1 with
      | none => true
      | some s => violatesConstraints s usedF usedP
    if needFallback then
      let a := halloc r1.2.1 (hread r1.2.1 randR)
      let s := shuffleArrayH a.1 a.2 r1.2.2
      let shuf := hread s.1 a.2
      if violatesConstraints shuf usedF usedP then
        tryGroupH fuel s.1 randR usedF usedP s.2
      else (some shuf, s.1, s.2)
    else (r1.1, r1.2.1, r1.2.2)

/-- The group loop in the heap model. -/
def runGroupsH : List Nat → Heap → Nat → Clue → List (Nat × List Step) →
    List String → List String → List Nat →
    Except String (List (Nat × List Step)) × Heap
  | [], h, _, _, acc, _, _, _ => (Except.ok acc, h)
  | g :: gs, h, randR, finalClue, acc, usedF, usedP, rand =>
    match tryGroupH 100 h randR usedF usedP rand with
    | (none, h', _) => (Except.error (errMsg g), h')
    | (some s, h', rand') =>
      runGroupsH gs h' randR finalClue
        (acc ++ [(g, buildSequence g s finalClue)])
        (usedF ++ [(s.headD default).question])
        (usedP ++ adjKeys s) rand'

/-- `generateHuntSequences` in the heap model: the caller's clue array
is referenced by `cluesR`; `clues.slice(0, -1)` allocates the
randomizable array. -/
def generateHuntSequencesH (h : Heap) (cluesR : Nat) (numGroups : Nat)
    (rand : List Nat) : Except String (List (Nat × List Step)) × Heap :=
  let clues := hread h cluesR
  if clues.length < 2 then (Except.error insufficientMsg, h)
  else
    let a := halloc h clues.dropLast
    runGroupsH (List.range' 1 numGroups) a.1 a.2 (clues.getLastD default)
      [] [] [] rand

/-- `h'` extends `h`: it is at least as long and agrees on every cell of
`h` — the run only allocated new cells and wrote to those. -/
def HeapExtends (h h' : Heap) : Prop :=
  h.length ≤ h'.length ∧ ∀ q, q < h.length → hread h' q = hread h q

/-! ### Basic length and permutation-shape lemmas -/

theorem listSwap_length (l : List Clue) (i j : Nat) :
    (listSwap l i j).length = l.length := by
  simp [listSwap]

theorem fisherYatesAux_length (i : Nat) : ∀ (l : List Clue) (rand : List Nat),
    (fisherYatesAux l i rand).1.length = l.length := by
  induction i with
  | zero => intro l rand; rfl
  | succ k ih => intro l rand; simp [fisherYatesAux, ih, listSwap_length]

theorem shuffleList_length (l : List Clue) (rand : List Nat) :
    (shuffleList l rand).1.length = l.length := by
  cases l with
  | nil => rfl
  | cons c rest => simpa [shuffleList] using fisherYatesAux_length _ _ _

theorem shuffleList_singleton (c : Clue) (rand : List Nat) :
    shuffleList [c] rand = ([c], rand) := rfl

theorem clue_kind_sum (c : Clue) :
    (if isPersonClue c then 1 else 0) + (if isPlaceClue c then 1 else 0) +
      (if isOtherClue c then 1 else 0) = 1 := by
  rcases hc : c.clueType with _ | t
  · simp [isPersonClue, isPlaceClue, isOtherClue, hc]
  · simp only [isPersonClue, isPlaceClue, isOtherClue, hc]
    by_cases hp : (strLower t == "person") = true
    · have heq : strLower t = "person" := eq_of_beq hp
      have hpl : (strLower t == "place") = false := by rw [heq]; rfl
      simp [hp, hpl]
    · by_cases hq : (strLower t == "place") = true
      · simp [hp, hq]
      · simp [hp, hq]

theorem filter_types_length (l : List Clue) :
    (l.filter isPersonClue).length + (l.filter isPlaceClue).length +
      (l.filter isOtherClue).length = l.length := by
  induction l with
  | nil => rfl
  | cons c rest ih =>
    have hc := clue_kind_sum c
    simp only [List.filter_cons]
    by_cases h1 : isPersonClue c <;> by_cases h2 : isPlaceClue c <;>
      by_cases h3 : isOtherClue c <;>
      simp [h1, h2, h3] at hc ⊢ <;> omega

theorem interleaveAux_length : ∀ (n : Nat) (place person : List Clue) (w : Bool),
    (interleaveAux n place person w).length = min n (place.length + person.length) := by
  intro n
  induction n with
  | zero => intro place person w; simp [interleaveAux]
  | succ k ih =>
    intro place person w
    cases w <;> rcases place with _ | ⟨p, ps⟩ <;> rcases person with _ | ⟨q, qs⟩ <;>
      simp [interleaveAux, ih] <;> omega

theorem postPassSwap_length (l : List Clue) : (postPassSwap l).length = l.length := by
  unfold postPassSwap
  split
  · split
    · cases hf : findPlaceIdx l (l.length - 2) <;> simp [listSwap_length]
    · rfl
  · rfl

theorem insertAt_length (l : List Clue) (pos : Nat) (c : Clue) :
    (insertAt l pos c).length = l.length + 1 := by
  simp [insertAt]
  omega

theorem insertOthers_length : ∀ (others result : List Clue) (rand : List Nat),
    (insertOthers result others rand).1.length = result.length + others.length := by
  intro others
  induction others with
  | nil => intro result rand; rfl
  | cons c rest ih =>
    intro result rand
    simp only [insertOthers]
    rw [ih, insertAt_length]
    simp only [List.length_cons]
    omega

theorem createAlternatingSequence_length (clues : List Clue) (rand : List Nat)
    (s : List Clue) (h : (createAlternatingSequence clues rand).1 = some s) :
    s.length = clues.length := by
  unfold createAlternatingSequence at h
  by_cases h1 : (clues.filter isPlaceClue).length = 0
  · simp [h1] at h
  · by_cases h2 :
      (clues.filter isPersonClue).length + (clues.filter isPlaceClue).length < 2
    · simp [h1, h2] at h
    · simp only [h1, h2, if_neg, if_false, ite_false] at h
      have hs := Option.some.inj h
      subst hs
      rw [insertOthers_length, postPassSwap_length, interleaveAux_length]
      rw [shuffleList_length, shuffleList_length, shuffleList_length]
      have := filter_types_length clues
      omega

/-! ### What a committed candidate satisfies -/

theorem violates_false_spec (c0 : Clue) (rest : List Clue) (usedF usedP : List String)
    (h : violatesConstraints (c0 :: rest) usedF usedP = false) :
    c0.question ∉ usedF ∧ ∀ k ∈ adjKeys (c0 :: rest), k ∉ usedP := by
  simp only [violatesConstraints] at h
  simp at h
  obtain ⟨hF, _, hP, _⟩ := h
  exact ⟨hF, hP⟩

theorem tryGroup_some (fuel : Nat) : ∀ (pool : List Clue) (usedF usedP : List String)
    (rand : List Nat) (s : List Clue),
    (tryGroup fuel pool usedF usedP rand).1 = some s →
    violatesConstraints s usedF usedP = false ∧ s.length = pool.length := by
  induction fuel with
  | zero => intro pool uF uP rand s h; simp [tryGroup] at h
  | succ n ih =>
    intro pool uF uP rand s h
    simp only [tryGroup] at h
    rcases halt : (createAlternatingSequence pool rand).1 with _ | s0
    all_goals rw [halt] at h
    · simp only [if_pos] at h
      by_cases hv : violatesConstraints (shuffleList pool
          (createAlternatingSequence pool rand).2).1 uF uP = true
      · rw [if_pos hv] at h
        exact ih _ _ _ _ _ h
      · rw [if_neg hv] at h
        have hs := Option.some.inj h
        subst hs
        exact ⟨by simpa using hv, shuffleList_length _ _⟩
    · by_cases hv0 : violatesConstraints s0 uF uP = true
      · simp only [hv0, if_pos, if_true] at h
        by_cases hv : violatesConstraints (shuffleList pool
            (createAlternatingSequence pool rand).2).1 uF uP = true
        · rw [if_pos hv] at h
          exact ih _ _ _ _ _ h
        · rw [if_neg hv] at h
          have hs := Option.some.inj h
          subst hs
          exact ⟨by simpa using hv, shuffleList_length _ _⟩
      · simp only [hv0] at h
        simp only [Bool.false_eq_true, if_false] at h
        have hs := Option.some.inj h
        subst hs
        exact ⟨by simpa using hv0, createAlternatingSequence_length _ _ _ halt⟩

theorem tryGroup_attempts (fuel : Nat) : ∀ (pool : List Clue)
    (usedF usedP : List String) (rand : List Nat),
    (tryGroup fuel pool usedF usedP rand).2.1 ≤ fuel := by
  induction fuel with
  | zero => intro pool uF uP rand; simp [tryGroup]
  | succ n ih =>
    intro pool uF uP rand
    simp only [tryGroup]
    split
    · split
      · exact Nat.add_le_add_right (ih _ _ _ _) 1
      · simp
    · simp

theorem runGroups_error (gs : List Nat) : ∀ (pool : List Clue) (finalClue : Clue)
    (acc : List (Nat × List Step)) (usedF usedP : List String) (rand : List Nat)
    (m : String),
    runGroups gs pool finalClue acc usedF usedP rand = Except.error m →
    ∃ g ∈ gs, m = errMsg g := by
  induction gs with
  | nil => intro pool f acc uF uP rand m h; simp [runGroups] at h
  | cons g gs ih =>
    intro pool f acc uF uP rand m h
    simp only [runGroups] at h
    rcases htg : tryGroup 100 pool uF uP rand with ⟨og, k, rand'⟩
    rw [htg] at h
    rcases og with _ | s
    · simp only [Except.error.injEq] at h
      exact ⟨g, by simp, h.symm⟩
    · obtain ⟨g', hg', hm⟩ := ih _ _ _ _ _ _ _ h
      exact ⟨g', by simp [hg'], hm⟩

/-! ### Shape of a generated sequence -/

theorem buildSteps_map_question (g : Nat) (f : Clue) :
    ∀ (c : List Clue) (k : Nat),
    (buildSteps g f k c).map Step.question = c.map Clue.question := by
  intro c
  induction c with
  | nil => intro k; rfl
  | cons c0 rest ih => intro k; simp [buildSteps, ih]

theorem buildSteps_length (g : Nat) (f : Clue) :
    ∀ (c : List Clue) (k : Nat), (buildSteps g f k c).length = c.length := by
  intro c
  induction c with
  | nil => intro k; rfl
  | cons c0 rest ih => intro k; simp [buildSteps, ih]

theorem buildSequence_length (g : Nat) (c : List Clue) (f : Clue) :
    (buildSequence g c f).length = c.length + 1 := by
  simp [buildSequence, buildSteps_length]

theorem buildSequence_ne_nil (g : Nat) (c : List Clue) (f : Clue) :
    buildSequence g c f ≠ [] := by
  simp [buildSequence]

theorem buildSequence_dropLast (g : Nat) (c : List Clue) (f : Clue) :
    (buildSequence g c f).dropLast = buildSteps g f 1 c := by
  simp [buildSequence, List.dropLast_concat]

theorem buildSequence_head (g : Nat) (c0 : Clue) (rest : List Clue) (f : Clue) :
    ((buildSequence g (c0 :: rest) f).headD default).question = c0.question := rfl

theorem buildSequence_adjKeys (g : Nat) (c : List Clue) (f : Clue) :
    adjKeysQ ((buildSequence g c f).dropLast.map Step.question) = adjKeys c := by
  rw [buildSequence_dropLast, buildSteps_map_question]
  rfl

theorem Committed.mono {pool : List Clue} {finalClue : Clue} {p : Nat × List Step}
    {usedF usedP usedF' usedP' : List String}
    (h : Committed pool finalClue p usedF usedP)
    (hF : ∀ x ∈ usedF, x ∈ usedF') (hP : ∀ x ∈ usedP, x ∈ usedP') :
    Committed pool finalClue p usedF' usedP' := by
  obtain ⟨c, h1, h2, h3, h4⟩ := h
  exact ⟨c, h1, h2, hF _ h3, fun k hk => hP _ (h4 k hk)⟩

/-- The cross-group step: a freshly validated candidate differs from
every previously committed entry. -/
theorem cross_ok {pool : List Clue} {finalClue : Clue} {usedF usedP : List String}
    (hpool : 0 < pool.length) (pOld : Nat × List Step)
    (hOld : Committed pool finalClue pOld usedF usedP)
    (g : Nat) (c0 : Clue) (rest : List Clue)
    (hlen : (c0 :: rest).length = pool.length)
    (hq : c0.question ∉ usedF)
    (hk : ∀ k ∈ adjKeys (c0 :: rest), k ∉ usedP) :
    FirstsDiffer (buildSequence g (c0 :: rest) finalClue) pOld.2 ∧
    PairsDisjoint (buildSequence g (c0 :: rest) finalClue) pOld.2 ∧
    FirstsDiffer pOld.2 (buildSequence g (c0 :: rest) finalClue) ∧
    PairsDisjoint pOld.2 (buildSequence g (c0 :: rest) finalClue) := by
  obtain ⟨cO, hEq, hLenO, hHeadO, hKeysO⟩ := hOld
  have hcne : cO ≠ [] := by
    intro hnil
    rw [hnil] at hLenO
    simp at hLenO
    omega
  obtain ⟨d0, dRest, rfl⟩ := List.exists_cons_of_ne_nil hcne
  have hHeadNew : ((buildSequence g (c0 :: rest) finalClue).headD default).question
      = c0.question := buildSequence_head _ _ _ _
  have hHeadOld : ((pOld.2).headD default).question = d0.question := by
    rw [hEq]; exact buildSequence_head _ _ _ _
  have hFirst : FirstsDiffer (buildSequence g (c0 :: rest) finalClue) pOld.2 := by
    unfold FirstsDiffer
    rw [hHeadNew, hHeadOld]
    intro hqq
    apply hq
    rw [hqq]
    exact hHeadO
  have hKeysNew : adjKeysQ ((buildSequence g (c0 :: rest) finalClue).dropLast.map
      Step.question) = adjKeys (c0 :: rest) := buildSequence_adjKeys _ _ _
  have hKeysOld : adjKeysQ ((pOld.2).dropLast.map Step.question)
      = adjKeys (d0 :: dRest) := by
    rw [hEq]; exact buildSequence_adjKeys _ _ _
  have hPairs : PairsDisjoint (buildSequence g (c0 :: rest) finalClue) pOld.2 := by
    unfold PairsDisjoint
    rw [hKeysNew, hKeysOld]
    intro k hkNew hkOld
    exact hk k hkNew (hKeysO k hkOld)
  have hPairs' : PairsDisjoint pOld.2 (buildSequence g (c0 :: rest) finalClue) := by
    unfold PairsDisjoint
    rw [hKeysNew, hKeysOld]
    intro k hkOld hkNew
    exact hk k hkNew (hKeysO k hkOld)
  exact ⟨hFirst, hPairs, fun hqq => hFirst hqq.symm, hPairs'⟩

/-- Main loop invariant: a successful `runGroups` extends the committed
entries, keeping every entry recorded in the ledger and all pairs of
distinct groups conflict-free. -/
theorem runGroups_ok_inv (gs : List Nat) :
    ∀ (pool : List Clue) (finalClue : Clue) (acc : List (Nat × List Step))
      (usedF usedP : List String) (rand : List Nat) (res : List (Nat × List Step)),
    runGroups gs pool finalClue acc usedF usedP rand = Except.ok res →
    0 < pool.length →
    LedgerInv pool finalClue acc usedF usedP →
    PairwiseInv acc →
    (∃ usedF' usedP', LedgerInv pool finalClue res usedF' usedP') ∧ PairwiseInv res := by
  induction gs with
  | nil =>
    intro pool f acc uF uP rand res h hpool hL hP
    simp only [runGroups, Except.ok.injEq] at h
    subst h
    exact ⟨⟨uF, uP, hL⟩, hP⟩
  | cons g gs ih =>
    intro pool f acc uF uP rand res h hpool hL hP
    simp only [runGroups] at h
    rcases htg : tryGroup 100 pool uF uP rand with ⟨og, k, rand'⟩
    rw [htg] at h
    rcases og with _ | s
    · simp at h
    · simp only at h
      obtain ⟨hviol, hlen⟩ := tryGroup_some 100 pool uF uP rand s (by rw [htg])
      have hsne : s ≠ [] := by
        intro hnil
        rw [hnil] at hlen
        simp at hlen
        omega
      obtain ⟨c0, rest, rfl⟩ := List.exists_cons_of_ne_nil hsne
      obtain ⟨hqF, hkP⟩ := violates_false_spec c0 rest uF uP hviol
      refine ih pool f _ _ _ rand' res h hpool ?_ ?_
      · intro p hp
        rcases List.mem_append.mp hp with hold | hnew
        · refine (hL p hold).mono ?_ ?_
          · intro x hx; exact List.mem_append.mpr (Or.inl hx)
          · intro x hx; exact List.mem_append.mpr (Or.inl hx)
        · have hpe : p = (g, buildSequence g (c0 :: rest) f) := by simpa using hnew
          subst hpe
          refine ⟨c0 :: rest, rfl, hlen, ?_, ?_⟩
          · simp
          · intro k hk
            exact List.mem_append.mpr (Or.inr hk)
      · intro p hp q hq hne
        rcases List.mem_append.mp hp with hpo | hpn <;>
          rcases List.mem_append.mp hq with hqo | hqn
        · exact hP p hpo q hqo hne
        · have hqe : q = (g, buildSequence g (c0 :: rest) f) := by simpa using hqn
          subst hqe
          have hc := cross_ok hpool p (hL p hpo) g c0 rest hlen hqF hkP
          exact ⟨hc.2.2.1, hc.2.2.2⟩
        · have hpe : p = (g, buildSequence g (c0 :: rest) f) := by simpa using hpn
          subst hpe
          have hc := cross_ok hpool q (hL q hqo) g c0 rest hlen hqF hkP
          exact ⟨hc.1, hc.2.1⟩
        · have hpe : p = (g, buildSequence g (c0 :: rest) f) := by simpa using hpn
          have hqe : q = (g, buildSequence g (c0 :: rest) f) := by simpa using hqn
          rw [hpe, hqe] at hne
          simp at hne

/-- Every successful run yields entries of the shape
`buildSequence g c finalClue` with `c` of the randomizable pool's
length, pairwise conflict-free. -/
theorem generate_ok_inv (clues : List Clue) (N : Nat) (rand : List Nat)
    (res : List (Nat × List Step))
    (h : generateHuntSequences clues N rand = Except.ok res) :
    2 ≤ clues.length ∧
    (∀ p ∈ res, ∃ c : List Clue,
        p.2 = buildSequence p.1 c (clues.getLastD default) ∧
        c.length = clues.dropLast.length) ∧
    PairwiseInv res := by
  unfold generateHuntSequences at h
  by_cases hlt : clues.length < 2
  · simp [hlt] at h
  · rw [if_neg hlt] at h
    have hpool : 0 < clues.dropLast.length := by
      simp [List.length_dropLast]
      omega
    obtain ⟨⟨uF', uP', hL⟩, hP⟩ := runGroups_ok_inv _ _ _ _ _ _ _ _ h hpool
      (by intro p hp; simp at hp) (by intro p hp; simp at hp)
    refine ⟨by omega, ?_, hP⟩
    intro p hp
    obtain ⟨c, h1, h2, _, _⟩ := hL p hp
    exact ⟨c, h1, h2⟩

/-- Convenient restatement of the shape part of `generate_ok_inv`. -/
theorem generate_ok_shape (clues : List Clue) (N : Nat) (rand : List Nat)
    (res : List (Nat × List Step)) (g : Nat) (s : List Step)
    (hrun : generateHuntSequences clues N rand = Except.ok res)
    (hmem : (g, s) ∈ res) :
    ∃ c : List Clue, s = buildSequence g c (clues.getLastD default) ∧
      c.length = clues.dropLast.length := by
  obtain ⟨_, hshape, _⟩ := generate_ok_inv clues N rand res hrun
  exact hshape (g, s) hmem

theorem data_append (a b : String) : (a ++ b).data = a.data ++ b.data := rfl

theorem strContains_append_left (p t : String) : strContains (p ++ t) t :=
  ⟨p.data, [], by simp [data_append]⟩

theorem strContains_nextLabel (g k : Nat) (q : String) :
    strContains (nextLabel g k q) q := by
  unfold nextLabel
  exact strContains_append_left _ _

theorem strContains_theEnd (m : String) :
    strContains (m ++ ". The End") "The End" := by
  refine ⟨m.data ++ (". ").data, [], ?_⟩
  rw [data_append]
  have h : (". The End").data = (". ").data ++ ("The End").data := by decide
  rw [h]
  simp

/-- A shared adjacent question pair would yield a shared pair key. -/
theorem adjPairsQ_key_mem : ∀ (qs : List String) (a b : String),
    (a, b) ∈ adjPairsQ qs → (a ++ "|" ++ b) ∈ adjKeysQ qs := by
  intro qs
  induction qs with
  | nil => intro a b h; simp [adjPairsQ] at h
  | cons x rest ih =>
    intro a b h
    rcases rest with _ | ⟨y, rest'⟩
    · simp [adjPairsQ] at h
    · simp only [adjPairsQ, List.mem_cons] at h
      rcases h with h | h
      · obtain ⟨ha, hb⟩ := Prod.mk.injEq .. ▸ h
        simp only [Prod.mk.injEq] at h
        rw [adjKeysQ, h.1, h.2]
        exact List.mem_cons_self _ _
      · exact List.mem_cons_of_mem _ (ih a b h)

theorem demoRun : generateHuntSequences demoClues 2 [1, 0] = Except.ok demoRes := by
  rfl

/-! ### Runs that always exhaust the attempt bound -/

theorem createAlternatingSequence_singleton (c : Clue) (rand : List Nat) :
    createAlternatingSequence [c] rand = (none, rand) := by
  unfold createAlternatingSequence
  by_cases hp : isPlaceClue c = true
  · have hq : isPersonClue c = false := by
      rcases hc : c.clueType with _ | t
      · simp [isPersonClue, hc]
      · simp only [isPlaceClue, hc] at hp
        have := eq_of_beq hp
        simp only [isPersonClue, hc, this]
        rfl
    simp [hp, hq, List.filter]
  · simp [List.filter, hp, Bool.not_eq_true _ ▸ hp]

theorem violates_place_cons (c0 : Clue) (rest : List Clue)
    (usedF usedP : List String) (h : placeFirstViolation c0 = true) :
    violatesConstraints (c0 :: rest) usedF usedP = true := by
  simp only [violatesConstraints]
  by_cases h1 : usedF.contains c0.question = true
  · rw [if_pos h1]
  · rw [if_neg h1, if_pos h]

theorem tryGroup_nonPlace_single (c0 : Clue) (h : placeFirstViolation c0 = true) :
    ∀ (fuel : Nat) (usedF usedP : List String) (rand : List Nat),
    tryGroup fuel [c0] usedF usedP rand = (none, fuel, rand) := by
  intro fuel
  induction fuel with
  | zero => intro uF uP rand; rfl
  | succ n ih =>
    intro uF uP rand
    simp only [tryGroup, createAlternatingSequence_singleton, shuffleList_singleton]
    simp only [if_true]
    rw [if_pos (violates_place_cons c0 [] uF uP h)]
    rw [ih uF uP rand]

theorem generate_nonPlace_single_fails (c0 cf : Clue)
    (h : placeFirstViolation c0 = true) (rand : List Nat) :
    generateHuntSequences [c0, cf] 1 rand = Except.error (errMsg 1) := by
  unfold generateHuntSequences
  rw [if_neg (by simp)]
  show runGroups [1] [c0] cf [] [] [] rand = Except.error (errMsg 1)
  simp only [runGroups, tryGroup_nonPlace_single c0 h 100]

/-! ### Claim theorems -/

/-- C1: for every successful run of `generateHuntSequences` and every
pair of distinct groups in the result, the first Step's question of one
group's sequence differs from the first Step's question of the other's. -/
theorem distinct_first_questions (clues : List Clue) (N : Nat) (rand : List Nat)
    (res : List (Nat × List Step)) (g1 g2 : Nat) (s1 s2 : List Step)
    (hrun : generateHuntSequences clues N rand = Except.ok res)
    (h1 : (g1, s1) ∈ res) (h2 : (g2, s2) ∈ res) (hne : g1 ≠ g2) :
    s1 ≠ [] ∧ s2 ≠ [] ∧
    (s1.headD default).question ≠ (s2.headD default).question := by
  obtain ⟨_, _, hpw⟩ := generate_ok_inv clues N rand res hrun
  obtain ⟨c1l, hs1, _⟩ := generate_ok_shape clues N rand res g1 s1 hrun h1
  obtain ⟨c2l, hs2, _⟩ := generate_ok_shape clues N rand res g2 s2 hrun h2
  refine ⟨?_, ?_, (hpw (g1, s1) h1 (g2, s2) h2 hne).1⟩
  · rw [hs1]; exact buildSequence_ne_nil _ _ _
  · rw [hs2]; exact buildSequence_ne_nil _ _ _

/-- Witness for C1: a concrete successful two-group run with distinct
opening questions. -/
theorem distinct_first_questions_witness :
    demoSeq1 ≠ [] ∧ demoSeq2 ≠ [] ∧
    (demoSeq1.headD default).question ≠ (demoSeq2.headD default).question :=
  distinct_first_questions demoClues 2 [1, 0] demoRes 1 2 demoSeq1 demoSeq2
    demoRun (by decide) (by decide) (by decide)

/-- C2: for every successful run and every pair of distinct groups, no
ordered pair of question texts appears adjacently in both groups'
randomizable portions (the Steps before the Final Clue step). -/
theorem no_shared_adjacent_pair (clues : List Clue) (N : Nat) (rand : List Nat)
    (res : List (Nat × List Step)) (g1 g2 : Nat) (s1 s2 : List Step)
    (qa qb : String)
    (hrun : generateHuntSequences clues N rand = Except.ok res)
    (h1 : (g1, s1) ∈ res) (h2 : (g2, s2) ∈ res) (hne : g1 ≠ g2)
    (hp : (qa, qb) ∈ adjPairsQ (s1.dropLast.map Step.question)) :
    (qa, qb) ∉ adjPairsQ (s2.dropLast.map Step.question) := by
  obtain ⟨_, _, hpw⟩ := generate_ok_inv clues N rand res hrun
  intro hp2
  have hd := (hpw (g1, s1) h1 (g2, s2) h2 hne).2
  exact hd _ (adjPairsQ_key_mem _ qa qb hp) (adjPairsQ_key_mem _ qa qb hp2)

/-- Witness for C2: the adjacent pair of group 1 in the concrete run is
absent from group 2's randomizable portion. -/
theorem no_shared_adjacent_pair_witness :
    ("q1", "q2") ∉ adjPairsQ (demoSeq2.dropLast.map Step.question) :=
  no_shared_adjacent_pair demoClues 2 [1, 0] demoRes 1 2 demoSeq1 demoSeq2
    "q1" "q2" demoRun (by decide) (by decide) (by decide) (by decide)

/-- C3: every group's sequence has length `|Randomizable Pool| + 1`
(i.e. the full clue count), and its last Step's question is the Final
Clue's question — the question of the last clue of the input pool —
identically for all groups. -/
theorem sequence_length_and_final_clue (clues : List Clue) (N : Nat) (rand : List Nat)
    (res : List (Nat × List Step)) (g : Nat) (s : List Step)
    (hrun : generateHuntSequences clues N rand = Except.ok res)
    (hmem : (g, s) ∈ res) :
    s.length = clues.dropLast.length + 1 ∧ s.length = clues.length ∧
    (s.getLastD default).question = (clues.getLastD default).question := by
  obtain ⟨hge, _, _⟩ := generate_ok_inv clues N rand res hrun
  obtain ⟨c, hs, hlen⟩ := generate_ok_shape clues N rand res g s hrun hmem
  have hL : s.length = clues.dropLast.length + 1 := by
    rw [hs, buildSequence_length, hlen]
  refine ⟨hL, ?_, ?_⟩
  · rw [hL, List.length_dropLast]
    omega
  · rw [hs]
    unfold buildSequence
    rw [List.getLastD_concat]

/-- Witness for C3 on the concrete run. -/
theorem sequence_length_and_final_clue_witness :
    demoSeq1.length = demoClues.dropLast.length + 1 ∧
    demoSeq1.length = demoClues.length ∧
    (demoSeq1.getLastD default).question = (demoClues.getLastD default).question :=
  sequence_length_and_final_clue demoClues 2 [1, 0] demoRes 1 demoSeq1
    demoRun (by decide)

/-! ### Step-level indexing lemmas for the chain invariant -/

theorem buildSteps_getD_clueNumber (g : Nat) (f : Clue) :
    ∀ (c : List Clue) (k i : Nat), i < c.length →
    ((buildSteps g f k c).getD i default).clueNumber = k + i := by
  intro c
  induction c with
  | nil => intro k i h; simp at h
  | cons c0 rest ih =>
    intro k i h
    cases i with
    | zero => rfl
    | succ j =>
      simp only [buildSteps, List.getD_cons_succ]
      rw [ih (k + 1) j (by simp at h; omega)]
      omega

theorem buildSteps_getD_question (g : Nat) (f : Clue) :
    ∀ (c : List Clue) (k i : Nat), i < c.length →
    ((buildSteps g f k c).getD i default).question
      = (c.getD i default).question := by
  intro c
  induction c with
  | nil => intro k i h; simp at h
  | cons c0 rest ih =>
    intro k i h
    cases i with
    | zero => rfl
    | succ j =>
      simp only [buildSteps, List.getD_cons_succ]
      exact ih (k + 1) j (by simp at h; omega)

theorem buildSteps_getD_nextClue_mid (g : Nat) (f : Clue) :
    ∀ (c : List Clue) (k i : Nat), i + 1 < c.length →
    ((buildSteps g f k c).getD i default).nextClue
      = nextLabel g (k + i + 1) ((c.getD (i + 1) default).question) := by
  intro c
  induction c with
  | nil => intro k i h; simp at h
  | cons c0 rest ih =>
    intro k i h
    cases i with
    | zero =>
      rcases rest with _ | ⟨c1, rest'⟩
      · simp at h
      · rfl
    | succ j =>
      simp only [buildSteps, List.getD_cons_succ]
      rw [ih (k + 1) j (by simp at h; omega)]
      have he : k + 1 + j + 1 = k + (j + 1) + 1 := by omega
      rw [he]

theorem buildSteps_getD_nextClue_last (g : Nat) (f : Clue) :
    ∀ (c : List Clue) (k : Nat), c ≠ [] →
    ((buildSteps g f k c).getD (c.length - 1) default).nextClue
      = nextLabel g (k + c.length) f.question := by
  intro c
  induction c with
  | nil => intro k h; exact absurd rfl h
  | cons c0 rest ih =>
    intro k _
    rcases rest with _ | ⟨c1, rest'⟩
    · rfl
    · have hi := ih (k + 1) (by simp)
      simp only [List.length_cons] at hi ⊢
      simp only [Nat.add_sub_cancel] at hi ⊢
      show ((buildSteps g f (k + 1) (c1 :: rest')).getD rest'.length default).nextClue
        = _
      rw [hi]
      have he : k + 1 + (rest'.length + 1) = k + (rest'.length + 1 + 1) := by omega
      rw [he]

theorem buildSequence_getD_final (g : Nat) (c : List Clue) (f : Clue) :
    (buildSequence g c f).getD c.length default
      = ⟨c.length + 1, f.question, "Hide this at/with: " ++ f.answer,
         toString (c.length + 2) ++ ". The End"⟩ := by
  unfold buildSequence
  rw [List.getD_append_right _ _ _ _ (Nat.le_of_eq (buildSteps_length g f c 1))]
  rw [buildSteps_length]
  simp

/-- C9: the chain invariant of every produced sequence: steps are
numbered `1..len` contiguously, each step's `nextClue` label textually
contains the next step's question, and the last step's label contains
the terminal marker "The End". -/
theorem chain_invariant (clues : List Clue) (N : Nat) (rand : List Nat)
    (res : List (Nat × List Step)) (g : Nat) (s : List Step)
    (hrun : generateHuntSequences clues N rand = Except.ok res)
    (hmem : (g, s) ∈ res) :
    (∀ i, i < s.length → (s.getD i default).clueNumber = i + 1) ∧
    (∀ i, i + 1 < s.length →
      strContains (s.getD i default).nextClue (s.getD (i + 1) default).question) ∧
    strContains (s.getLastD default).nextClue "The End" := by
  obtain ⟨c, hs, hlen⟩ := generate_ok_shape clues N rand res g s hrun hmem
  subst hs
  have hsl : (buildSequence g c (clues.getLastD default)).length = c.length + 1 :=
    buildSequence_length _ _ _
  refine ⟨?_, ?_, ?_⟩
  · intro i hi
    rw [hsl] at hi
    rcases Nat.lt_or_ge i c.length with hic | hic
    · show ((buildSteps g (clues.getLastD default) 1 c ++ _).getD i default).clueNumber
        = i + 1
      rw [List.getD_append _ _ _ i (by rw [buildSteps_length]; exact hic)]
      rw [buildSteps_getD_clueNumber g _ c 1 i hic]
      omega
    · have hieq : i = c.length := by omega
      subst hieq
      rw [buildSequence_getD_final]
  · intro i hi
    rw [hsl] at hi
    rcases Nat.lt_or_ge (i + 1) c.length with hmid | hge
    · have hil : i < c.length := by omega
      show strContains
        ((buildSteps g (clues.getLastD default) 1 c ++ _).getD i default).nextClue
        (((buildSteps g (clues.getLastD default) 1 c ++ _).getD (i + 1)
          default).question)
      rw [List.getD_append _ _ _ i (by rw [buildSteps_length]; exact hil)]
      rw [List.getD_append _ _ _ (i + 1) (by rw [buildSteps_length]; exact hmid)]
      rw [buildSteps_getD_nextClue_mid g _ c 1 i hmid]
      rw [buildSteps_getD_question g _ c 1 (i + 1) hmid]
      exact strContains_nextLabel _ _ _
    · have hieq : i + 1 = c.length := by omega
      have hcne : c ≠ [] := by
        intro hnil
        rw [hnil] at hieq
        simp at hieq
      have hil : i < c.length := by omega
      have hfin := buildSequence_getD_final g c (clues.getLastD default)
      rw [← hieq] at hfin
      rw [hfin]
      show strContains
        ((buildSteps g (clues.getLastD default) 1 c ++ _).getD i default).nextClue _
      rw [List.getD_append _ _ _ i (by rw [buildSteps_length]; exact hil)]
      have hlast := buildSteps_getD_nextClue_last g (clues.getLastD default) c 1 hcne
      have hidx : c.length - 1 = i := by omega
      rw [hidx] at hlast
      rw [hlast]
      exact strContains_nextLabel _ _ _
  · show strContains
      ((buildSteps g (clues.getLastD default) 1 c ++ _).getLastD default).nextClue
      "The End"
    rw [List.getLastD_concat]
    exact strContains_theEnd _

/-- Witness for C9 on the concrete run. -/
theorem chain_invariant_witness :
    (∀ i, i < demoSeq1.length → (demoSeq1.getD i default).clueNumber = i + 1) ∧
    (∀ i, i + 1 < demoSeq1.length →
      strContains (demoSeq1.getD i default).nextClue
        (demoSeq1.getD (i + 1) default).question) ∧
    strContains (demoSeq1.getLastD default).nextClue "The End" :=
  chain_invariant demoClues 2 [1, 0] demoRes 1 demoSeq1 demoRun (by decide)

/-! ### The Place-first check on unrecognized categories (C5) -/

/-- C5 fails on the code: a candidate whose first entry carries the
unrecognized category "banana" is rejected by the Place-first check, and
therefore by the validator, although the claim says such a first entry
is accepted. -/
theorem placeFirst_unrecognized_rejected :
    placeFirstViolation ⟨"q", "a", some "banana"⟩ = true ∧
    violatesConstraints [⟨"q", "a", some "banana"⟩] [] [] = true := by
  constructor <;> rfl

/-- C5 (amended): the Place-first check rejects a first entry exactly
when it carries a category whose lowercase form is not "place" — Person
and unrecognized strings alike; only an uncategorized or
Place-categorized first entry passes, and a rejected first entry makes
the whole validator reject the candidate. -/
theorem placeFirst_check_characterization (c : Clue) :
    (placeFirstViolation c = true ↔
      ∃ t, c.clueType = some t ∧ strLower t ≠ "place") ∧
    (placeFirstViolation c = true →
      ∀ (rest : List Clue) (usedF usedP : List String),
        violatesConstraints (c :: rest) usedF usedP = true) := by
  refine ⟨⟨?_, ?_⟩, ?_⟩
  · intro h
    rcases hc : c.clueType with _ | t
    · simp [placeFirstViolation, hc] at h
    · refine ⟨t, rfl, ?_⟩
      simp [placeFirstViolation, hc] at h
      exact h
  · rintro ⟨t, hc, hne⟩
    simp [placeFirstViolation, hc]
    exact hne
  · intro h rest usedF usedP
    exact violates_place_cons c rest usedF usedP h

/-- Witness for the amended C5 at a concrete Person-typed clue. -/
theorem placeFirst_check_characterization_witness :
    placeFirstViolation ⟨"q0", "a0", some "Person"⟩ = true :=
  (placeFirst_check_characterization ⟨"q0", "a0", some "Person"⟩).1.mpr
    ⟨"Person", rfl, by decide⟩

/-! ### The two-clue deterministic run (C6) -/

/-- C6 fails on the code: with a 2-clue pool whose single randomizable
clue is Person-typed and N = 1, the run errors out after exhausting the
attempt bound instead of succeeding. -/
theorem two_clue_person_run_fails :
    generateHuntSequences [⟨"cq", "ca", some "Person"⟩, ⟨"fq", "fa", none⟩] 1 []
      = Except.error (errMsg 1) :=
  generate_nonPlace_single_fails _ _ (by decide) []

/-- One-step unfolding of `tryGroup` at a successor fuel value. -/
theorem tryGroup_succ (fuel : Nat) (pool : List Clue) (usedF usedP : List String)
    (rand : List Nat) :
    tryGroup (fuel + 1) pool usedF usedP rand =
      (let r1 := createAlternatingSequence pool rand
       let needFallback : Bool :=
         match r1.1 with
         | none => true
         | some s => violatesConstraints s usedF usedP
       if needFallback then
         let r2 := shuffleList pool r1.2
         if violatesConstraints r2.1 usedF usedP then
           let r3 := tryGroup fuel pool usedF usedP r2.2
           (r3.1, r3.2.1 + 1, r3.2.2)
         else (some r2.1, 1, r2.2)
       else (r1.1, 1, r1.2)) := rfl

/-- C6 (amended): for a pool of exactly the Final Clue plus one other
clue whose category is absent or lowercases to "place", and N = 1,
`generateHuntSequences` succeeds with the same single 2-step sequence
for every pseudorandom stream (only one ordering is possible); a
Person-typed or otherwise categorized randomizable clue instead fails
the Place-first rule on every attempt. -/
theorem two_clue_deterministic (c0 cf : Clue)
    (h : c0.clueType = none ∨ ∃ t, c0.clueType = some t ∧ strLower t = "place") :
    ∀ rand : List Nat,
      generateHuntSequences [c0, cf] 1 rand
        = Except.ok [(1, buildSequence 1 [c0] cf)] := by
  intro rand
  have hpf : placeFirstViolation c0 = false := by
    rcases h with h | ⟨t, ht, hlow⟩
    · simp [placeFirstViolation, h]
    · simp [placeFirstViolation, ht, hlow]
  have hfa : followsAlternatingTypes [c0] = true := by
    unfold followsAlternatingTypes
    split
    · rfl
    · simp [countTypeViolations]
  have hv : violatesConstraints [c0] [] [] = false := by
    simp only [violatesConstraints]
    rw [if_neg (by simp), if_neg (by simp [hpf])]
    rw [if_neg (by simp [adjKeys, adjKeysQ])]
    simp [hfa]
  have hstep : ∀ (fuel : Nat) (r : List Nat),
      tryGroup (fuel + 1) [c0] [] [] r = (some [c0], 1, r) := by
    intro fuel r
    simp only [tryGroup, createAlternatingSequence_singleton,
      shuffleList_singleton, if_true]
    rw [if_neg (by simp [hv])]
  have htry : tryGroup 100 [c0] [] [] rand = (some [c0], 1, rand) := hstep 99 rand
  unfold generateHuntSequences
  rw [if_neg (by simp)]
  show runGroups [1] [c0] cf [] [] [] rand = _
  simp only [runGroups, htry]
  rfl

/-- Witness for the amended C6 on a concrete untyped clue pool and an
arbitrary nonempty random stream. -/
theorem two_clue_deterministic_witness :
    generateHuntSequences [⟨"wq", "wa", none⟩, ⟨"wf", "wb", none⟩] 1 [5, 7]
      = Except.ok [(1, buildSequence 1 [⟨"wq", "wa", none⟩] ⟨"wf", "wb", none⟩)] :=
  two_clue_deterministic ⟨"wq", "wa", none⟩ ⟨"wf", "wb", none⟩ (Or.inl rfl) [5, 7]

/-- C4 fails on the code: on `onePlaceThreePersons` (with a stream that
makes every partition shuffle the identity) `createAlternatingSequence`
returns a sequence — not the sentinel — whose first entry is
Person-categorized: the second-to-last post-pass searches from index 0,
finds the mandatory Place-first entry there, and swaps it away. -/
theorem alternating_first_entry_person :
    (createAlternatingSequence onePlaceThreePersons [2, 1]).1
      = some [⟨"a2q", "x", some "Person"⟩, ⟨"a1q", "x", some "Person"⟩,
              ⟨"p1", "x", some "Place"⟩, ⟨"a3q", "x", some "Person"⟩] ∧
    isPersonClue (((createAlternatingSequence onePlaceThreePersons
      [2, 1]).1.getD []).headD default) = true := by
  constructor <;> rfl

/-! ### Attempt bound and fatal failure (C7) -/

theorem strContains_mid (a t b : String) : strContains (a ++ t ++ b) t :=
  ⟨a.data, b.data, by simp [data_append]⟩

theorem strContains_errMsg_group (g : Nat) : strContains (errMsg g) (toString g) := by
  unfold errMsg
  exact strContains_mid _ _ _

theorem strContains_errMsg_100 (g : Nat) : strContains (errMsg g) "100" := by
  refine ⟨("Could not generate valid sequence for Group " ++ toString g).data
      ++ (" after ").data,
    (" attempts. Try using more clues or fewer groups.").data, ?_⟩
  show (errMsg g).data = _
  unfold errMsg
  rw [data_append]
  have hB : (" after 100 attempts. Try using more clues or fewer groups.").data
      = (" after ").data ++ ("100").data
        ++ (" attempts. Try using more clues or fewer groups.").data := by decide
  rw [hB]
  simp

/-- C7: each group's retry loop makes at most 100 attempts; when a run
on at least 2 clues fails, the whole run aborts with an error — no
mapping is returned — whose message is `errMsg g` for some group
`g ∈ 1..N`, textually naming the failing group number and the
100-attempt bound. -/
theorem attempt_bound_and_fatal_error (clues : List Clue) (N : Nat)
    (rand : List Nat) (m : String)
    (hge : 2 ≤ clues.length)
    (herr : generateHuntSequences clues N rand = Except.error m) :
    (∀ (pool : List Clue) (usedF usedP : List String) (r : List Nat),
      (tryGroup 100 pool usedF usedP r).2.1 ≤ 100) ∧
    ∃ g, 1 ≤ g ∧ g ≤ N ∧ m = errMsg g ∧
      strContains m (toString g) ∧ strContains m "100" := by
  refine ⟨fun pool uF uP r => tryGroup_attempts 100 pool uF uP r, ?_⟩
  unfold generateHuntSequences at herr
  rw [if_neg (by omega)] at herr
  obtain ⟨g, hg, hm⟩ := runGroups_error _ _ _ _ _ _ _ _ herr
  rw [List.mem_range'] at hg
  obtain ⟨i, hi, hgi⟩ := hg
  subst hm
  exact ⟨g, by omega, by omega, rfl, strContains_errMsg_group g,
    strContains_errMsg_100 g⟩

/-- Witness for C7 on a concrete failing run. -/
theorem attempt_bound_and_fatal_error_witness :
    (∀ (pool : List Clue) (usedF usedP : List String) (r : List Nat),
      (tryGroup 100 pool usedF usedP r).2.1 ≤ 100) ∧
    ∃ g, 1 ≤ g ∧ g ≤ 1 ∧ errMsg 1 = errMsg g ∧
      strContains (errMsg 1) (toString g) ∧ strContains (errMsg 1) "100" :=
  attempt_bound_and_fatal_error
    [⟨"pq", "pa", some "person"⟩, ⟨"pf", "pb", none⟩] 1 [] (errMsg 1)
    (by decide) (generate_nonPlace_single_fails _ _ (by decide) [])

theorem HeapExtends.refl (h : Heap) : HeapExtends h h :=
  ⟨Nat.le_refl _, fun _ _ => rfl⟩

theorem HeapExtends.trans {h1 h2 h3 : Heap}
    (a : HeapExtends h1 h2) (b : HeapExtends h2 h3) : HeapExtends h1 h3 :=
  ⟨Nat.le_trans a.1 b.1,
   fun q hq => (b.2 q (Nat.lt_of_lt_of_le hq a.1)).trans (a.2 q hq)⟩

theorem HeapExtends.alloc {h h' : Heap} (e : HeapExtends h h') (v : List Clue) :
    HeapExtends h (halloc h' v).1 := by
  have he1 := e.1
  refine ⟨?_, fun q hq => ?_⟩
  · simp only [halloc, List.length_append, List.length_cons, List.length_nil]
    omega
  · have hq' : q < h'.length := Nat.lt_of_lt_of_le hq e.1
    simp only [halloc, hread]
    rw [List.getD_append _ _ _ q hq']
    exact e.2 q hq

theorem shuffleArrayH_frame (h : Heap) (r : Nat) (rand : List Nat) :
    (shuffleArrayH h r rand).1.length = h.length ∧
    ∀ q, q ≠ r → hread (shuffleArrayH h r rand).1 q = hread h q := by
  refine ⟨by simp [shuffleArrayH, hwrite], fun q hq => ?_⟩
  simp only [shuffleArrayH, hwrite, hread, List.getD_eq_getElem?_getD]
  rw [List.getElem?_set_ne (fun he => hq he.symm)]

theorem HeapExtends.shuffleAtEnd {h h' : Heap} (e : HeapExtends h h')
    (r : Nat) (hr : h.length ≤ r) (rand : List Nat) :
    HeapExtends h (shuffleArrayH h' r rand).1 := by
  have he1 := e.1
  obtain ⟨hl2, hq2⟩ := shuffleArrayH_frame h' r rand
  refine ⟨by omega, fun q hlt => ?_⟩
  rw [hq2 q (by omega)]
  exact e.2 q hlt

theorem createAlternatingSequenceH_extends (h : Heap) (cluesR : Nat)
    (rand : List Nat) :
    HeapExtends h (createAlternatingSequenceH h cluesR rand).2.1 := by
  unfold createAlternatingSequenceH
  dsimp only
  split
  · exact HeapExtends.refl h
  · split
    · exact HeapExtends.refl h
    · refine HeapExtends.shuffleAtEnd ?_ _ ?_ _
      · refine HeapExtends.shuffleAtEnd ?_ _ ?_ _
        · refine HeapExtends.shuffleAtEnd ?_ _ ?_ _
          · exact ((HeapExtends.refl h).alloc _).alloc _ |>.alloc _
          · exact Nat.le_refl _
        · simp only [halloc, List.length_append, List.length_cons, List.length_nil]
          omega
      · simp only [halloc, List.length_append, List.length_cons, List.length_nil]
        omega

theorem tryGroupH_extends : ∀ (fuel : Nat) (h : Heap) (randR : Nat)
    (usedF usedP : List String) (rand : List Nat),
    HeapExtends h (tryGroupH fuel h randR usedF usedP rand).2.1 := by
  intro fuel
  induction fuel with
  | zero => intro h randR uF uP rand; exact HeapExtends.refl h
  | succ n ih =>
    intro h randR uF uP rand
    simp only [tryGroupH]
    split
    · split
      · refine ((((createAlternatingSequenceH_extends h randR rand).alloc
          _).shuffleAtEnd _ ?_ _).trans (ih _ _ _ _ _))
        exact (createAlternatingSequenceH_extends h randR rand).1
      · refine ((createAlternatingSequenceH_extends h randR rand).alloc
          _).shuffleAtEnd _ ?_ _
        exact (createAlternatingSequenceH_extends h randR rand).1
    · exact createAlternatingSequenceH_extends h randR rand

theorem runGroupsH_extends : ∀ (gs : List Nat) (h : Heap) (randR : Nat)
    (finalClue : Clue) (acc : List (Nat × List Step))
    (usedF usedP : List String) (rand : List Nat),
    HeapExtends h (runGroupsH gs h randR finalClue acc usedF usedP rand).2 := by
  intro gs
  induction gs with
  | nil => intro h randR f acc uF uP rand; exact HeapExtends.refl h
  | cons g gs ih =>
    intro h randR f acc uF uP rand
    simp only [runGroupsH]
    rcases htg : tryGroupH 100 h randR uF uP rand with ⟨og, h', rand'⟩
    have hex := tryGroupH_extends 100 h randR uF uP rand
    rw [htg] at hex
    rcases og with _ | s
    · exact hex
    · exact hex.trans (ih _ _ _ _ _ _ _)

/-- C10: the generator never mutates the caller's clues array: whatever
the outcome (success or abort), the heap cell holding the caller's array
still holds the same records in the same order — the randomizable pool
is a slice copy, the fallback shuffles a spread copy, and the
alternating builder shuffles only freshly filtered arrays. -/
theorem generate_preserves_input (h : Heap) (cluesR numGroups : Nat)
    (rand : List Nat) (hq : cluesR < h.length) :
    hread (generateHuntSequencesH h cluesR numGroups rand).2 cluesR
      = hread h cluesR := by
  unfold generateHuntSequencesH
  dsimp only
  split
  · rfl
  · exact (((HeapExtends.refl h).alloc _).trans
      (runGroupsH_extends _ _ _ _ _ _ _ _)).2 cluesR hq

/-- Witness for C10 on a concrete heap holding the demo clue array. -/
theorem generate_preserves_input_witness :
    hread (generateHuntSequencesH [demoClues] 0 2 [1, 0]).2 0
      = hread [demoClues] 0 :=
  generate_preserves_input [demoClues] 0 2 [1, 0] (by decide)

/-- C8: with fewer than 2 clues, `generateHuntSequences` reports the
InsufficientClues error immediately, identically for every group count
and random stream — before any group's attempt loop runs or any
constraint state is built — and in the heap model the heap is returned
entirely untouched. -/
theorem insufficient_clues_immediate (clues : List Clue)
    (hlt : clues.length < 2) :
    (∀ (N : Nat) (rand : List Nat),
      generateHuntSequences clues N rand = Except.error insufficientMsg) ∧
    (∀ (h : Heap) (cluesR N : Nat) (rand : List Nat),
      hread h cluesR = clues →
      generateHuntSequencesH h cluesR N rand
        = (Except.error insufficientMsg, h)) := by
  constructor
  · intro N rand
    unfold generateHuntSequences
    rw [if_pos hlt]
  · intro h cluesR N rand hc
    unfold generateHuntSequencesH
    dsimp only
    rw [hc, if_pos hlt]

/-- Witness for C8 on a one-clue pool. -/
theorem insufficient_clues_immediate_witness :
    generateHuntSequences [⟨"only", "one", none⟩] 3 [9]
      = Except.error insufficientMsg :=
  (insufficient_clues_immediate [⟨"only", "one", none⟩] (by decide)).1 3 [9]
